import Mathlib

set_option maxHeartbeats 1000000

/- Shallow embedding of `examples/bm25_en_caption/run_bm25_baseline.py` (AToMiC BM25
baseline pipeline script) together with models of the external collaborators it
exercises (Python's `json` module, `multiprocessing.Pool.map`, `pathlib` globbing
and symlink creation, `pandas`-style CSV rendering).  Definitions mirror the
source; theorems settle the specification claims about it. -/

/-! ## JSON values, parsing and dumping (model of Python's `json` module) -/

/-- Abstract syntax of JSON values.  Numbers keep their source lexeme, which is
all the script ever needs (it never computes with numeric values). -/
inductive Json where
  | null : Json
  | bool : Bool → Json
  | num : String → Json
  | str : String → Json
  | arr : List Json → Json
  | obj : List (String × Json) → Json

/-- Errors the per-line transform can raise: a JSON decode failure from
`json.loads`, a missing-key error from `obj[...]`, or a type error from
subscripting a non-object JSON value with a string key. -/
inductive PyErr where
  | jsonDecodeError : PyErr
  | keyError : String → PyErr
  | typeError : PyErr
  deriving DecidableEq

/-- Is this character JSON whitespace? -/
def isWsChar (c : Char) : Bool :=
  c == ' ' || c == '\t' || c == '\n' || c == '\r'

/-- Drop leading JSON whitespace. -/
def skipWs : List Char → List Char
  | [] => []
  | c :: rest => if isWsChar c then skipWs rest else c :: rest

/-- Value of a hexadecimal digit, if any. -/
def hexVal (c : Char) : Option Nat :=
  let n := c.toNat
  if 48 ≤ n ∧ n ≤ 57 then some (n - 48)
  else if 97 ≤ n ∧ n ≤ 102 then some (n - 87)
  else if 65 ≤ n ∧ n ≤ 70 then some (n - 55)
  else none

/-- Parse the body of a JSON string (after the opening quote), returning the
decoded string and the input remaining after the closing quote.  Escapes follow
`json.loads`: the named escapes, `\uXXXX`, surrogate pairs combined; raw control
characters are rejected (strict mode). -/
def parseStr (acc : List Char) : List Char → Option (String × List Char)
  | [] => none
  | '"' :: rest => some (String.mk acc.reverse, rest)
  | '\\' :: '"' :: rest => parseStr ('"' :: acc) rest
  | '\\' :: '\\' :: rest => parseStr ('\\' :: acc) rest
  | '\\' :: '/' :: rest => parseStr ('/' :: acc) rest
  | '\\' :: 'b' :: rest => parseStr (Char.ofNat 8 :: acc) rest
  | '\\' :: 'f' :: rest => parseStr (Char.ofNat 12 :: acc) rest
  | '\\' :: 'n' :: rest => parseStr ('\n' :: acc) rest
  | '\\' :: 'r' :: rest => parseStr ('\r' :: acc) rest
  | '\\' :: 't' :: rest => parseStr ('\t' :: acc) rest
  | '\\' :: 'u' :: a :: b :: c :: d :: rest =>
    match hexVal a, hexVal b, hexVal c, hexVal d with
    | some ha, some hb, some hc, some hd =>
      let n := ((ha * 16 + hb) * 16 + hc) * 16 + hd
      if 55296 ≤ n ∧ n ≤ 56319 then
        match rest with
        | '\\' :: 'u' :: a2 :: b2 :: c2 :: d2 :: rest2 =>
          match hexVal a2, hexVal b2, hexVal c2, hexVal d2 with
          | some h2a, some h2b, some h2c, some h2d =>
            let m := ((h2a * 16 + h2b) * 16 + h2c) * 16 + h2d
            if 56320 ≤ m ∧ m ≤ 57343 then
              parseStr (Char.ofNat (65536 + (n - 55296) * 1024 + (m - 56320)) :: acc) rest2
            else none
          | _, _, _, _ => none
        | _ => none
      else if 56320 ≤ n ∧ n ≤ 57343 then none
      else parseStr (Char.ofNat n :: acc) rest
    | _, _, _, _ => none
  | '\\' :: _ => none
  | c :: rest => if c.toNat < 32 then none else parseStr (c :: acc) rest

/-- Split off a maximal run of decimal digits. -/
def digitsSpan : List Char → List Char × List Char
  | [] => ([], [])
  | c :: rest =>
    if c.isDigit then
      let (ds, r) := digitsSpan rest
      (c :: ds, r)
    else ([], c :: rest)

/-- Integer part of a JSON number: `0`, or a nonzero digit followed by digits. -/
def parseIntPart : List Char → Option (List Char × List Char)
  | '0' :: rest => some (['0'], rest)
  | c :: rest =>
    if c.isDigit then
      let (ds, r) := digitsSpan rest
      some (c :: ds, r)
    else none
  | [] => none

/-- Optional fractional part of a JSON number. -/
def parseFrac (cs : List Char) : Option (List Char × List Char) :=
  match cs with
  | '.' :: r =>
    match digitsSpan r with
    | ([], _) => none
    | (ds, r2) => some ('.' :: ds, r2)
  | _ => some ([], cs)

/-- Optional exponent part of a JSON number. -/
def parseExp (cs : List Char) : Option (List Char × List Char) :=
  match cs with
  | c :: r =>
    if c == 'e' || c == 'E' then
      let (sgn, r1) :=
        match r with
        | '+' :: r2 => ((['+'] : List Char), r2)
        | '-' :: r2 => ((['-'] : List Char), r2)
        | _ => ([], r)
      match digitsSpan r1 with
      | ([], _) => none
      | (ds, r2) => some (c :: (sgn ++ ds), r2)
    else some ([], cs)
  | [] => some ([], [])

/-- Parse a JSON number, keeping its lexeme. -/
def parseNum (cs : List Char) : Option (Json × List Char) :=
  let (sign, cs1) :=
    match cs with
    | '-' :: r => ((['-'] : List Char), r)
    | _ => ([], cs)
  match parseIntPart cs1 with
  | none => none
  | some (ip, cs2) =>
    match parseFrac cs2 with
    | none => none
    | some (fp, cs3) =>
      match parseExp cs3 with
      | none => none
      | some (ep, cs4) => some (.num (String.mk (sign ++ ip ++ fp ++ ep)), cs4)

mutual

/-- Fuel-indexed recursive-descent JSON value parser (model of `json.loads`). -/
def parseVal : Nat → List Char → Option (Json × List Char)
  | 0, _ => none
  | Nat.succ fuel, cs =>
    match skipWs cs with
    | 'n' :: 'u' :: 'l' :: 'l' :: rest => some (.null, rest)
    | 't' :: 'r' :: 'u' :: 'e' :: rest => some (.bool true, rest)
    | 'f' :: 'a' :: 'l' :: 's' :: 'e' :: rest => some (.bool false, rest)
    | '"' :: rest =>
      match parseStr [] rest with
      | some (s, rest2) => some (.str s, rest2)
      | none => none
    | '[' :: rest =>
      (match skipWs rest with
       | ']' :: rest2 => some (.arr [], rest2)
       | cs2 => parseArrItems fuel [] cs2)
    | '{' :: rest =>
      (match skipWs rest with
       | '}' :: rest2 => some (.obj [], rest2)
       | cs2 => parseObjItems fuel [] cs2)
    | cs2 => parseNum cs2

/-- Parse the remaining comma-separated items of a JSON array. -/
def parseArrItems : Nat → List Json → List Char → Option (Json × List Char)
  | 0, _, _ => none
  | Nat.succ fuel, acc, cs =>
    match parseVal fuel cs with
    | none => none
    | some (v, rest) =>
      match skipWs rest with
      | ',' :: rest2 => parseArrItems fuel (v :: acc) rest2
      | ']' :: rest2 => some (.arr (v :: acc).reverse, rest2)
      | _ => none

/-- Parse the remaining comma-separated members of a JSON object. -/
def parseObjItems : Nat → List (String × Json) → List Char → Option (Json × List Char)
  | 0, _, _ => none
  | Nat.succ fuel, acc, cs =>
    match skipWs cs with
    | '"' :: rest =>
      match parseStr [] rest with
      | none => none
      | some (k, rest2) =>
        match skipWs rest2 with
        | ':' :: rest3 =>
          match parseVal fuel rest3 with
          | none => none
          | some (v, rest4) =>
            match skipWs rest4 with
            | ',' :: rest5 => parseObjItems fuel ((k, v) :: acc) rest5
            | '}' :: rest5 => some (.obj ((k, v) :: acc).reverse, rest5)
            | _ => none
        | _ => none
    | _ => none

end

/-- Model of `json.loads` applied to one line: parse a value and require only
whitespace to remain.  `none` models a raised `json.JSONDecodeError`. -/
def jsonParse (s : String) : Option Json :=
  match parseVal (2 * s.length + 2) s.toList with
  | some (v, rest) => if (skipWs rest).isEmpty then some v else none
  | none => none

/-- Hexadecimal digit character (lowercase, as `json.dumps` emits). -/
def hexDigit (n : Nat) : Char :=
  if n < 10 then Char.ofNat (48 + n) else Char.ofNat (87 + n)

/-- Four-digit hexadecimal rendering. -/
def hex4 (n : Nat) : List Char :=
  [hexDigit (n / 4096 % 16), hexDigit (n / 256 % 16), hexDigit (n / 16 % 16), hexDigit (n % 16)]

/-- Escape one character the way `json.dumps` (default `ensure_ascii=True`) does. -/
def escChar (c : Char) : List Char :=
  if c = '"' then ['\\', '"']
  else if c = '\\' then ['\\', '\\']
  else if c = '\n' then ['\\', 'n']
  else if c = '\t' then ['\\', 't']
  else if c = '\r' then ['\\', 'r']
  else if c.toNat = 8 then ['\\', 'b']
  else if c.toNat = 12 then ['\\', 'f']
  else if c.toNat < 32 then '\\' :: 'u' :: hex4 c.toNat
  else if c.toNat < 127 then [c]
  else if c.toNat < 65536 then '\\' :: 'u' :: hex4 c.toNat
  else
    ('\\' :: 'u' :: hex4 (55296 + (c.toNat - 65536) / 1024)) ++
      ('\\' :: 'u' :: hex4 (56320 + (c.toNat - 65536) % 1024))

/-- Serialize a string as a quoted JSON string literal. -/
def encodeStr (s : String) : String :=
  String.mk ('"' :: ((s.toList.map escChar).flatten ++ ['"']))

mutual

/-- Model of `json.dumps` with its default separators `", "` and `": "`. -/
def Json.dumps : Json → String
  | .null => "null"
  | .bool true => "true"
  | .bool false => "false"
  | .num lx => lx
  | .str s => encodeStr s
  | .arr es => "[" ++ dumpsElems es ++ "]"
  | .obj ms => "\x7b" ++ dumpsMembers ms ++ "\x7d"

/-- Serialize array elements, `", "`-separated. -/
def dumpsElems : List Json → String
  | [] => ""
  | [e] => Json.dumps e
  | e :: rest => Json.dumps e ++ ", " ++ dumpsElems rest

/-- Serialize object members, `", "`-separated with `": "` after each key. -/
def dumpsMembers : List (String × Json) → String
  | [] => ""
  | [(k, v)] => encodeStr k ++ ": " ++ Json.dumps v
  | (k, v) :: rest => encodeStr k ++ ": " ++ Json.dumps v ++ ", " ++ dumpsMembers rest

end

/-- Key lookup in a parsed JSON object.  The last occurrence wins, matching the
behaviour of `json.loads` building a Python `dict`. -/
def lookupLast : List (String × Json) → String → Option Json
  | [], _ => none
  | (k', v) :: rest, k =>
    match lookupLast rest k with
    | some r => some r
    | none => if k' = k then some v else none

/-- Keys of a JSON object member list, in order. -/
def objKeys (ms : List (String × Json)) : List String :=
  ms.map Prod.fst

/-- Embedding of `process_jsonl_line`: `json.loads` the line, then
`json.dumps({"id": obj["id"], "title": obj["contents"]})`.  Errors model the
exceptions the Python code would raise (decode error, `KeyError`, `TypeError`). -/
def process_jsonl_line (line : String) : Except PyErr String :=
  match jsonParse line with
  | none => .error .jsonDecodeError
  | some (.obj ms) =>
    match lookupLast ms "id", lookupLast ms "contents" with
    | some i, some c => .ok (Json.dumps (.obj [("id", i), ("title", c)]))
    | none, _ => .error (.keyError "id")
    | some _, none => .error (.keyError "contents")
  | some _ => .error .typeError

/-! ## Worker pool and `convert_jsonl_for_search` -/

/-- One step of the pool's result collection: when the task with input index `i`
completes, its result is stored into slot `i` of the result list (this is how
`multiprocessing.Pool.map` assembles results: by input position, not by
completion time).  `sched` is the completion order of the tasks. -/
def fillSlots (f : α → β) (xs : List α) : List Nat → List (Option β) → List (Option β)
  | [], slots => slots
  | i :: rest, slots =>
    match xs[i]? with
    | some a => fillSlots f xs rest (slots.set i (some (f a)))
    | none => fillSlots f xs rest slots

/-- Collect a list of filled slots, failing if any slot was never filled. -/
def collectSlots : List (Option β) → Option (List β)
  | [] => some []
  | none :: _ => none
  | some b :: rest => (collectSlots rest).map (b :: ·)

/-- Model of `Pool.map(f, xs)` under completion schedule `sched`: every task's
result lands in its input-position slot; `map` returns once all slots are
filled.  `none` means the schedule was not a real execution (some task never
completed). -/
def poolMapSched (f : α → β) (xs : List α) (sched : List Nat) : Option (List β) :=
  collectSlots (fillSlots f xs sched (List.replicate xs.length none))

/-- Propagate the first per-line exception out of the collected results, the
way `Pool.map` re-raises a worker exception in the parent. -/
def seqExcept : List (Except PyErr String) → Except PyErr (List String)
  | [] => .ok []
  | .error e :: _ => .error e
  | .ok r :: rest =>
    match seqExcept rest with
    | .error e => .error e
    | .ok rs => .ok (r :: rs)

/-- Embedding of `convert_jsonl_for_search`.  `nproc` is the pool size (16 in
the source), `sched` the completion schedule of the pool's tasks, `lines` the
lines of the input file.  The output file is opened with mode `"w"` (created
and truncated) before any result is written; all per-line results are collected
by `Pool.map` before the first write.  The result is `some (written lines,
raised exception if any)`; `none` marks an impossible schedule. -/
def convert_jsonl_for_search (nproc : Nat) (sched : List Nat) (lines : List String) :
    Option (List String × Option PyErr) :=
  match poolMapSched process_jsonl_line lines sched with
  | none => none
  | some results =>
    match seqExcept results with
    | .ok rows => some (rows, none)
    | .error e => some (([] : List String), some e)

/-- The row `process_jsonl_line` produces on a line it transforms successfully. -/
def processedRow (l : String) : String :=
  match process_jsonl_line l with
  | .ok r => r
  | .error _ => ""

/-- Does the per-line transform succeed on this line? -/
def lineOk (l : String) : Bool :=
  match process_jsonl_line l with
  | .ok _ => true
  | .error _ => false

/-! ## Filesystem model, globbing, and `create_index` -/

/-- File and directory names are character lists. -/
abbrev FName := List Char

/-- The benchmark settings (`SETTINGS = ["small", "base", "large"]`). -/
inductive Setting where
  | small : Setting
  | base : Setting
  | large : Setting
  deriving DecidableEq

/-- Name of a setting as it appears in paths. -/
def settingName : Setting → FName
  | .small => "small".toList
  | .base => "base".toList
  | .large => "large".toList

/-- Executable prefix test on character lists. -/
def isPre : FName → FName → Bool
  | [], _ => true
  | _ :: _, [] => false
  | a :: as, b :: bs => if a = b then isPre as bs else false

/-- Executable suffix test on character lists. -/
def isSuf (s n : FName) : Bool :=
  isPre s.reverse n.reverse

/-- Does the name avoid the hidden-file rule (nonempty, not starting with a
dot)?  `pathlib.Path.glob` patterns starting with `*` skip hidden names. -/
def notHidden : FName → Bool
  | [] => false
  | c :: _ => c != '.'

/-- Model of matching the glob pattern `pre*suf` against a file name, as
`pathlib.Path.glob` does: the name splits as `pre ++ mid ++ suf`, except that a
pattern starting with `*` does not match hidden names (leading dot). -/
def globMatch (pre suf n : FName) : Bool :=
  (if pre.isEmpty then notHidden n else isPre pre n) && isSuf suf (n.drop pre.length)

def trainName : FName := "train".toList
def validationName : FName := "validation".toList
def testName : FName := "test".toList
def otherName : FName := "other".toList

/-- The split names of the script's `SPLITS` list. -/
def SPLITS_N : List FName := [trainName, validationName, testName, otherName]

/-- The shard extension `.jsonl`. -/
def jsonlExt : FName := ".jsonl".toList

/-- Shard selection of `create_index` from the listing of an unsuffixed
collection directory: `small` globs `{split}*.jsonl`, `base` aggregates the
globs for train, validation and test (the loop's three `extend` calls), and
`large` globs `*.jsonl`. -/
def selectNames (setting : Setting) (split : Option FName) (listing : List FName) :
    List FName :=
  match setting with
  | .small => listing.filter (globMatch (split.getD []) jsonlExt)
  | .base =>
    listing.filter (globMatch trainName jsonlExt) ++
      listing.filter (globMatch validationName jsonlExt) ++
        listing.filter (globMatch testName jsonlExt)
  | .large => listing.filter (globMatch [] jsonlExt)

/-- Errors `create_index` can raise: the explicit usage error for
`setting="small"` without a split, and `FileExistsError` from
`Path.symlink_to` over an existing path. -/
inductive Err where
  | usageError : Err
  | fileExists : FName → FName → Err
  deriving DecidableEq

/-- Filesystem state visible to `create_index`: the shard files present in the
unsuffixed `text-collection/` and `image-collection/` directories, the set of
directories that exist under the output path, and the symbolic links present in
staging directories as (directory, link name) pairs. -/
structure FS where
  textListing : List FName
  imageListing : List FName
  dirs : List FName
  links : List (FName × FName)
  deriving DecidableEq

/-- `Path.mkdir(exist_ok=True)`: create the directory, succeeding (and changing
nothing) when it already exists. -/
def mkdirOk (fs : FS) (d : FName) : FS :=
  if d ∈ fs.dirs then fs else { fs with dirs := d :: fs.dirs }

/-- `Path.symlink_to`: raises `FileExistsError` when the link name already
exists in the staging directory. -/
def symlinkTo (fs : FS) (d p : FName) : Except Err FS :=
  if (d, p) ∈ fs.links then .error (.fileExists d p)
  else .ok { fs with links := (d, p) :: fs.links }

/-- The `for p in ...: (dir / p.name).symlink_to(p)` loop. -/
def linkAll (fs : FS) (d : FName) : List FName → Except Err FS
  | [] => .ok fs
  | p :: ps =>
    match symlinkTo fs d p with
    | .error e => .error e
    | .ok fs' => linkAll fs' d ps

/-- Python's `not split` for an optional string: true for `None` and `""`. -/
def notSplit : Option FName → Bool
  | none => true
  | some [] => true
  | some (_ :: _) => false

/-- The `postfix` computed by `create_index` and `search_anserini`:
`"." + split` when the setting is `small`, empty otherwise. -/
def suffixPart (setting : Setting) (split : Option FName) : FName :=
  if setting = Setting.small then '.' :: (split.getD []) else []

/-- The staging directory `text-collection.{setting}{postfix}`. -/
def textDirName (setting : Setting) (split : Option FName) : FName :=
  "text-collection.".toList ++ settingName setting ++ suffixPart setting split

/-- The staging directory `image-collection.{setting}{postfix}`. -/
def imageDirName (setting : Setting) (split : Option FName) : FName :=
  "image-collection.".toList ++ settingName setting ++ suffixPart setting split

/-- The `indexes` directory. -/
def indexesDirName : FName := "indexes".toList

/-- The `-index` path `indexes/lucene-index.atomic.text.flat.{setting}{postfix}`
passed to the external indexer for the text corpus. -/
def textIndexName (setting : Setting) (split : Option FName) : FName :=
  "indexes/lucene-index.atomic.text.flat.".toList ++ settingName setting ++
    suffixPart setting split

/-- The `-index` path for the image-caption corpus. -/
def imageIndexName (setting : Setting) (split : Option FName) : FName :=
  "indexes/lucene-index.atomic.image.flat.".toList ++ settingName setting ++
    suffixPart setting split

/-- What `create_index` decides purely from its arguments and the collection
listings: staging directory names, selected shards, and the index paths handed
to the external indexer. -/
structure IndexPlan where
  textDir : FName
  imageDir : FName
  textShards : List FName
  imageShards : List FName
  textIndexPath : FName
  imageIndexPath : FName
  deriving DecidableEq

/-- Embedding of `create_index`: the usage guard, the two `mkdir(exist_ok=True)`
calls, the glob-based shard selection from the unsuffixed collection
directories, the two symlink loops (text first, then image), the `indexes`
mkdir, and the index paths passed to `anserini_index` (recorded in the plan;
the external indexer itself is out of scope). -/
def create_index (setting : Setting) (split : Option FName) (fs : FS) :
    Except Err (FS × IndexPlan) :=
  if setting = Setting.small ∧ notSplit split = true then .error .usageError
  else
    match linkAll (mkdirOk (mkdirOk fs (textDirName setting split)) (imageDirName setting split))
        (textDirName setting split) (selectNames setting split fs.textListing) with
    | .error e => .error e
    | .ok fsA =>
      match linkAll fsA (imageDirName setting split) (selectNames setting split fs.imageListing) with
      | .error e => .error e
      | .ok fsB =>
        .ok (mkdirOk fsB indexesDirName,
          { textDir := textDirName setting split
            imageDir := imageDirName setting split
            textShards := selectNames setting split fs.textListing
            imageShards := selectNames setting split fs.imageListing
            textIndexPath := textIndexName setting split
            imageIndexPath := imageIndexName setting split })

/-! ## Qrels preparation (`prep_qrels`) -/

/-- A relevance-judgment record of the qrels dataset. -/
structure QrelRow where
  text_id : String
  q0 : String
  image_id : String
  rel : Nat
  deriving DecidableEq

/-- Modelled from the spec: the native column order of the external qrels
dataset (not part of this repository).  The spec describes the qrel record as
(query_id, iteration_constant, document_id, relevance_grade), the default-order
output file is the text-to-image (`t2i`) projection whose query ids are text
ids, and the code's explicit selection `["image_id", "Q0", "text_id", "rel"]`
is described as "swapping the id roles"; hence the native order is
`text_id, Q0, image_id, rel`. -/
def qrelDefaultCols : List String := ["text_id", "Q0", "image_id", "rel"]

/-- The explicit column selection used for the `i2t` file
(`columns=["image_id", "Q0", "text_id", "rel"]` in the source). -/
def i2tCols : List String := ["image_id", "Q0", "text_id", "rel"]

/-- Decimal digits of a natural number (fuel-based). -/
def natToChars : Nat → Nat → List Char
  | 0, _ => []
  | fuel + 1, n =>
    if n < 10 then [Char.ofNat (48 + n)]
    else natToChars fuel (n / 10) ++ [Char.ofNat (48 + n % 10)]

/-- Decimal rendering of a natural number, as the CSV writer prints an integer
relevance grade. -/
def natRepr (n : Nat) : String := String.mk (natToChars (n + 1) n)

/-- Value of a named column of a qrel record. -/
def colValue (r : QrelRow) (c : String) : String :=
  if c = "text_id" then r.text_id
  else if c = "Q0" then r.q0
  else if c = "image_id" then r.image_id
  else if c = "rel" then natRepr r.rel
  else ""

/-- Minimal CSV quoting (`pandas.to_csv` default `QUOTE_MINIMAL`): a field is
quoted only when it contains the separator, a quote, or a line break. -/
def csvField (v : String) : String :=
  if v.toList.any (fun c => c = ' ' || c = '"' || c = '\n' || c = '\r') then
    String.mk ('"' :: (v.toList.map (fun c => if c = '"' then ['"', '"'] else [c])).flatten
      ++ ['"'])
  else v

/-- One `to_csv(header=None, sep=" ", index=False)` output line for the given
column order. -/
def qrelLine (cols : List String) (r : QrelRow) : String :=
  String.intercalate " " (cols.map (fun c => csvField (colValue r c)))

/-- Embedding of the output of `prep_qrels` for a downloaded split: the lines
of the `t2i` projected file (default column order) and of the `i2t` projected
file (explicit swapped column selection). -/
def prep_qrels_lines (records : List QrelRow) : List String × List String :=
  (records.map (qrelLine qrelDefaultCols), records.map (qrelLine i2tCols))

/-! ## Lemmas about globbing and shard selection -/

theorem isPre_append (s r : FName) : isPre s (s ++ r) = true := by
  induction s with
  | nil => rfl
  | cons a as ih => simpa [isPre] using ih

theorem drop_len_append (s r : FName) : (s ++ r).drop s.length = r := by
  induction s with
  | nil => rfl
  | cons a as ih => simpa using ih

theorem isSuf_append (s m : FName) : isSuf s (m ++ s) = true := by
  unfold isSuf
  rw [List.reverse_append]
  exact isPre_append _ _

theorem globMatch_decomp (pre suf mid : FName) (h : pre ≠ []) :
    globMatch pre suf (pre ++ mid ++ suf) = true := by
  have hpe : pre.isEmpty = false := by
    cases pre with
    | nil => exact absurd rfl h
    | cons a as => rfl
  rw [globMatch, hpe, List.append_assoc, drop_len_append]
  simp [isPre_append, isSuf_append, List.append_assoc]

theorem isPre_split_ne (p s : FName) (hp : p ∈ [trainName, validationName, testName])
    (hs : s ∈ SPLITS_N) (hne : p ≠ s) (r : FName) : isPre p (s ++ r) = false := by
  simp only [List.mem_cons, List.mem_singleton, List.not_mem_nil, or_false] at hp
  simp only [SPLITS_N, List.mem_cons, List.mem_singleton, List.not_mem_nil, or_false] at hs
  rcases hp with rfl | rfl | rfl <;> rcases hs with rfl | rfl | rfl | rfl <;>
    first
      | exact absurd rfl hne
      | rfl

theorem splitName_ne_nil (p : FName) (hp : p ∈ [trainName, validationName, testName]) :
    p ≠ [] := by
  simp only [List.mem_cons, List.mem_singleton, List.not_mem_nil, or_false] at hp
  rcases hp with rfl | rfl | rfl <;> decide

theorem globMatch_eq_isPre (p : FName) (hp : p ∈ [trainName, validationName, testName])
    (n : FName) (hn : ∃ s ∈ SPLITS_N, ∃ mid, n = s ++ mid ++ jsonlExt) :
    globMatch p jsonlExt n = isPre p n := by
  obtain ⟨s, hs, mid, rfl⟩ := hn
  by_cases hps : p = s
  · subst hps
    rw [globMatch_decomp p jsonlExt mid (splitName_ne_nil p hp), List.append_assoc,
      isPre_append]
  · have h1 : isPre p (s ++ (mid ++ jsonlExt)) = false :=
      isPre_split_ne p s hp hs hps (mid ++ jsonlExt)
    have hpe : p.isEmpty = false := by
      cases hpp : p with
      | nil => exact absurd hpp (splitName_ne_nil p hp)
      | cons a as => rfl
    rw [globMatch, hpe, List.append_assoc, h1]
    simp [h1]

theorem globMatch_nil_true (n : FName) (hn : ∃ s ∈ SPLITS_N, ∃ mid, n = s ++ mid ++ jsonlExt) :
    globMatch [] jsonlExt n = true := by
  obtain ⟨s, hs, mid, rfl⟩ := hn
  have h1 : notHidden (s ++ mid ++ jsonlExt) = true := by
    simp only [SPLITS_N, List.mem_cons, List.mem_singleton, List.not_mem_nil, or_false] at hs
    rcases hs with rfl | rfl | rfl | rfl <;> rfl
  simp only [globMatch, List.isEmpty_nil, if_true, h1, List.length_nil, List.drop_zero,
    Bool.true_and]
  exact isSuf_append _ _

/-- Claim C1: over a collection listing whose names all have the form
`split ++ mid ++ ".jsonl"` for a split of `SPLITS`, the shard selection of
`create_index` picks, for `base`, exactly the names beginning with `train`,
`validation` or `test`; for `large`, every `*.jsonl` shard (all of them,
including e.g. `other.text.jsonl`); and for `small` with split `validation`,
exactly the names beginning with `validation`. -/
theorem create_index_selection (listing : List FName)
    (H : ∀ n ∈ listing, ∃ s ∈ SPLITS_N, ∃ mid, n = s ++ mid ++ jsonlExt) :
    (∀ n, n ∈ selectNames .base none listing ↔
      n ∈ listing ∧ (isPre trainName n = true ∨ isPre validationName n = true ∨
        isPre testName n = true)) ∧
    selectNames .large none listing = listing ∧
    (∀ n, n ∈ selectNames .small (some validationName) listing ↔
      n ∈ listing ∧ isPre validationName n = true) := by
  refine ⟨?_, ?_, ?_⟩
  · intro n
    simp only [selectNames, List.mem_append, List.mem_filter]
    constructor
    · rintro ((⟨hm, hg⟩ | ⟨hm, hg⟩) | ⟨hm, hg⟩)
      · rw [globMatch_eq_isPre trainName (by simp) n (H n hm)] at hg
        exact ⟨hm, Or.inl hg⟩
      · rw [globMatch_eq_isPre validationName (by simp) n (H n hm)] at hg
        exact ⟨hm, Or.inr (Or.inl hg)⟩
      · rw [globMatch_eq_isPre testName (by simp) n (H n hm)] at hg
        exact ⟨hm, Or.inr (Or.inr hg)⟩
    · rintro ⟨hm, h | h | h⟩
      · exact Or.inl (Or.inl ⟨hm,
          by rw [globMatch_eq_isPre trainName (by simp) n (H n hm)]; exact h⟩)
      · exact Or.inl (Or.inr ⟨hm,
          by rw [globMatch_eq_isPre validationName (by simp) n (H n hm)]; exact h⟩)
      · exact Or.inr ⟨hm,
          by rw [globMatch_eq_isPre testName (by simp) n (H n hm)]; exact h⟩
  · simp only [selectNames]
    rw [List.filter_eq_self]
    intro n hm
    exact globMatch_nil_true n (H n hm)
  · intro n
    simp only [selectNames, Option.getD_some, List.mem_filter]
    constructor
    · rintro ⟨hm, hg⟩
      rw [globMatch_eq_isPre validationName (by simp) n (H n hm)] at hg
      exact ⟨hm, hg⟩
    · rintro ⟨hm, h⟩
      exact ⟨hm, by rw [globMatch_eq_isPre validationName (by simp) n (H n hm)]; exact h⟩

/-- The concrete listing of the spec's selection scenario: shards for all four
splits of the `text` field. -/
def listW : List FName :=
  ["train.text.jsonl".toList, "validation.text.jsonl".toList,
    "test.text.jsonl".toList, "other.text.jsonl".toList]

/-- Witness for claim C1 at the spec's concrete shard files. -/
theorem create_index_selection_witness :
    (∀ n ∈ listW, ∃ s ∈ SPLITS_N, ∃ mid, n = s ++ mid ++ jsonlExt) ∧
    ((∀ n, n ∈ selectNames .base none listW ↔
        n ∈ listW ∧ (isPre trainName n = true ∨ isPre validationName n = true ∨
          isPre testName n = true)) ∧
      selectNames .large none listW = listW ∧
      (∀ n, n ∈ selectNames .small (some validationName) listW ↔
        n ∈ listW ∧ isPre validationName n = true)) := by
  have hW : ∀ n ∈ listW, ∃ s ∈ SPLITS_N, ∃ mid, n = s ++ mid ++ jsonlExt := by
    intro n hn
    simp only [listW, List.mem_cons, List.not_mem_nil, or_false] at hn
    rcases hn with rfl | rfl | rfl | rfl
    · exact ⟨trainName, by decide, ".text".toList, by decide⟩
    · exact ⟨validationName, by decide, ".text".toList, by decide⟩
    · exact ⟨testName, by decide, ".text".toList, by decide⟩
    · exact ⟨otherName, by decide, ".text".toList, by decide⟩
  exact ⟨hW, create_index_selection listW hW⟩

/-! ## Lemmas about `create_index` errors and re-runs -/

theorem notSplit_iff (split : Option FName) :
    notSplit split = true ↔ (split = none ∨ split = some []) := by
  cases split with
  | none => simp [notSplit]
  | some l =>
    cases l with
    | nil => simp [notSplit]
    | cons a as => simp [notSplit]

theorem linkAll_error_fileExists : ∀ (ps : List FName) (fs : FS) (d : FName) (e : Err),
    linkAll fs d ps = .error e → ∃ dd nn, e = .fileExists dd nn := by
  intro ps
  induction ps with
  | nil =>
    intro fs d e h
    exact absurd h (by simp [linkAll])
  | cons p ps ih =>
    intro fs d e h
    by_cases hm : (d, p) ∈ fs.links
    · simp only [linkAll, symlinkTo, if_pos hm] at h
      exact ⟨d, p, (Except.error.inj h).symm⟩
    · simp only [linkAll, symlinkTo, if_neg hm] at h
      exact ih _ _ _ h

/-- Claim C2: `create_index` raises its usage error exactly when the setting is
`small` and the split is missing or empty; no other argument combination
triggers that check. -/
theorem create_index_usage_error (setting : Setting) (split : Option FName) (fs : FS) :
    create_index setting split fs = .error .usageError ↔
      (setting = Setting.small ∧ (split = none ∨ split = some [])) := by
  constructor
  · intro h
    by_cases hg : (setting = Setting.small ∧ notSplit split = true)
    · exact ⟨hg.1, (notSplit_iff split).mp hg.2⟩
    · exfalso
      simp only [create_index, if_neg hg] at h
      split at h
      · rename_i e hA
        obtain ⟨dd, nn, rfl⟩ := linkAll_error_fileExists _ _ _ _ hA
        simp at h
      · rename_i fsA hA
        split at h
        · rename_i e hB
          obtain ⟨dd, nn, rfl⟩ := linkAll_error_fileExists _ _ _ _ hB
          simp at h
        · simp at h
  · rintro ⟨rfl, hsp⟩
    have hns : notSplit split = true := (notSplit_iff split).mpr hsp
    simp [create_index, hns]

/-- Witness for claim C2: `setting="small"` with a missing split raises the
usage error. -/
theorem create_index_usage_error_witness :
    create_index .small none { textListing := [], imageListing := [], dirs := [], links := [] } =
      .error .usageError :=
  (create_index_usage_error .small none _).mpr ⟨rfl, Or.inl rfl⟩

/-- Claim C8: for the `base` and `large` settings, `create_index` is a constant
function of its split argument: the whole result — staging directories created,
shards selected and linked, and index paths recorded for the external indexer —
is identical for any two split values, including `None`. -/
theorem create_index_split_independent (setting : Setting) (h : setting ≠ Setting.small)
    (s1 s2 : Option FName) (fs : FS) :
    create_index setting s1 fs = create_index setting s2 fs := by
  cases setting with
  | small => exact absurd rfl h
  | base => rfl
  | large => rfl

/-- A small filesystem used by witnesses: one text shard, nothing else. -/
def fsB : FS :=
  { textListing := ["train.text.jsonl".toList], imageListing := [], dirs := [], links := [] }

/-- Witness for claim C8 at concrete arguments. -/
theorem create_index_split_independent_witness :
    create_index .base (some validationName) fsB = create_index .base none fsB :=
  create_index_split_independent .base (by decide) (some validationName) none fsB

theorem mkdirOk_textListing (fs : FS) (d : FName) :
    (mkdirOk fs d).textListing = fs.textListing := by
  unfold mkdirOk; split <;> rfl

theorem mkdirOk_imageListing (fs : FS) (d : FName) :
    (mkdirOk fs d).imageListing = fs.imageListing := by
  unfold mkdirOk; split <;> rfl

theorem mkdirOk_links (fs : FS) (d : FName) : (mkdirOk fs d).links = fs.links := by
  unfold mkdirOk; split <;> rfl

theorem mkdirOk_self_mem (fs : FS) (d : FName) : d ∈ (mkdirOk fs d).dirs := by
  unfold mkdirOk
  split
  · assumption
  · exact List.mem_cons_self _ _

theorem mkdirOk_dirs_mono (fs : FS) (d x : FName) (h : x ∈ fs.dirs) :
    x ∈ (mkdirOk fs d).dirs := by
  unfold mkdirOk
  split
  · exact h
  · exact List.mem_cons_of_mem _ h

theorem linkAll_ok_inv : ∀ (ps : List FName) (fs fs2 : FS) (d : FName),
    linkAll fs d ps = .ok fs2 →
    fs2.textListing = fs.textListing ∧ fs2.imageListing = fs.imageListing ∧
      fs2.dirs = fs.dirs ∧ (∀ l ∈ fs.links, l ∈ fs2.links) ∧
      (∀ p ∈ ps, (d, p) ∈ fs2.links) := by
  intro ps
  induction ps with
  | nil =>
    intro fs fs2 d h
    simp only [linkAll] at h
    obtain rfl := Except.ok.inj h
    exact ⟨rfl, rfl, rfl, fun l hl => hl, fun p hp => absurd hp (List.not_mem_nil p)⟩
  | cons p ps ih =>
    intro fs fs2 d h
    by_cases hm : (d, p) ∈ fs.links
    · simp [linkAll, symlinkTo, hm] at h
    · simp only [linkAll, symlinkTo, if_neg hm] at h
      obtain ⟨h1, h2, h3, h4, h5⟩ := ih _ _ _ h
      refine ⟨h1, h2, h3, fun l hl => h4 l (List.mem_cons_of_mem _ hl), ?_⟩
      intro q hq
      rcases List.mem_cons.mp hq with rfl | hq'
      · exact h4 (d, q) (List.mem_cons_self _ _)
      · exact h5 q hq'

theorem linkAll_head_error (fs : FS) (d p : FName) (ps : List FName)
    (hm : (d, p) ∈ fs.links) : linkAll fs d (p :: ps) = .error (.fileExists d p) := by
  simp [linkAll, symlinkTo, hm]

/-- Claim C7: rerunning `create_index` with the same arguments on the state a
successful run produced (with at least one text shard linked) gets past every
directory-creation step — all three directories already exist and
`mkdir(exist_ok=True)` cannot fail in the model — but the first symlink
re-creation hits an existing link name and raises `FileExistsError`, which
propagates out of `create_index`. -/
theorem create_index_rerun (setting : Setting) (split : Option FName) (fs fs' : FS)
    (plan : IndexPlan) (h1 : create_index setting split fs = .ok (fs', plan))
    (h2 : plan.textShards ≠ []) :
    plan.textDir ∈ fs'.dirs ∧ plan.imageDir ∈ fs'.dirs ∧ indexesDirName ∈ fs'.dirs ∧
    ∃ p, (plan.textDir, p) ∈ fs'.links ∧
      create_index setting split fs' = .error (.fileExists plan.textDir p) := by
  by_cases hg : (setting = Setting.small ∧ notSplit split = true)
  · simp [create_index, hg] at h1
  · simp only [create_index, if_neg hg] at h1
    split at h1
    · simp at h1
    · rename_i fsA hA
      split at h1
      · simp at h1
      · rename_i fsB hB
        injection h1 with h1p
        injection h1p with hfs hplan
        subst hfs
        subst hplan
        have invA := linkAll_ok_inv _ _ _ _ hA
        have invB := linkAll_ok_inv _ _ _ _ hB
        have hTL : (mkdirOk fsB indexesDirName).textListing = fs.textListing := by
          rw [mkdirOk_textListing, invB.1, invA.1, mkdirOk_textListing, mkdirOk_textListing]
        have hd1 : textDirName setting split ∈ (mkdirOk fsB indexesDirName).dirs := by
          apply mkdirOk_dirs_mono
          rw [invB.2.2.1, invA.2.2.1]
          exact mkdirOk_dirs_mono _ _ _ (mkdirOk_self_mem _ _)
        have hd2 : imageDirName setting split ∈ (mkdirOk fsB indexesDirName).dirs := by
          apply mkdirOk_dirs_mono
          rw [invB.2.2.1, invA.2.2.1]
          exact mkdirOk_self_mem _ _
        have hd3 : indexesDirName ∈ (mkdirOk fsB indexesDirName).dirs :=
          mkdirOk_self_mem _ _
        rcases hsel0 : selectNames setting split fs.textListing with _ | ⟨p, rest⟩
        · exact absurd hsel0 h2
        · have hp_mem : p ∈ selectNames setting split fs.textListing := by
            rw [hsel0]; exact List.mem_cons_self _ _
          have hlinkA : (textDirName setting split, p) ∈ fsA.links :=
            invA.2.2.2.2 p hp_mem
          have hlink' : (textDirName setting split, p) ∈ (mkdirOk fsB indexesDirName).links := by
            rw [mkdirOk_links]
            exact invB.2.2.2.1 _ hlinkA
          refine ⟨hd1, hd2, hd3, p, hlink', ?_⟩
          simp only [create_index, if_neg hg]
          rw [show (mkdirOk fsB indexesDirName).textListing = fs.textListing from hTL, hsel0]
          have hm2 : (textDirName setting split, p) ∈
              (mkdirOk (mkdirOk (mkdirOk fsB indexesDirName) (textDirName setting split))
                (imageDirName setting split)).links := by
            rw [mkdirOk_links, mkdirOk_links]
            exact hlink'
          rw [linkAll_head_error _ _ _ _ hm2]

instance {ε α : Type} [DecidableEq ε] [DecidableEq α] : DecidableEq (Except ε α) := fun a b =>
  match a, b with
  | .error e1, .error e2 =>
    if h : e1 = e2 then isTrue (by rw [h]) else isFalse (fun hc => h (Except.error.inj hc))
  | .ok v1, .ok v2 =>
    if h : v1 = v2 then isTrue (by rw [h]) else isFalse (fun hc => h (Except.ok.inj hc))
  | .error _, .ok _ => isFalse (fun hc => Except.noConfusion hc)
  | .ok _, .error _ => isFalse (fun hc => Except.noConfusion hc)

/-- One encoded validation shard. -/
def vtextShard : FName := "validation.text.jsonl".toList

/-- Fresh output directory holding only that shard. -/
def fsW : FS :=
  { textListing := [vtextShard], imageListing := [], dirs := [], links := [] }

/-- The filesystem state after a first successful `create_index` run on `fsW`. -/
def fsW1 : FS :=
  { textListing := [vtextShard], imageListing := [],
    dirs := [indexesDirName, imageDirName .small (some validationName),
      textDirName .small (some validationName)],
    links := [(textDirName .small (some validationName), vtextShard)] }

/-- The plan of that first run. -/
def planW : IndexPlan :=
  { textDir := textDirName .small (some validationName)
    imageDir := imageDirName .small (some validationName)
    textShards := [vtextShard]
    imageShards := []
    textIndexPath := textIndexName .small (some validationName)
    imageIndexPath := imageIndexName .small (some validationName) }

/-- Witness for claim C7: a concrete first run succeeds, and the immediate
rerun fails with `FileExistsError` on the already-present symlink. -/
theorem create_index_rerun_witness :
    create_index .small (some validationName) fsW = .ok (fsW1, planW) ∧
    planW.textShards ≠ [] ∧
    (planW.textDir ∈ fsW1.dirs ∧ planW.imageDir ∈ fsW1.dirs ∧
      indexesDirName ∈ fsW1.dirs ∧
      ∃ p, (planW.textDir, p) ∈ fsW1.links ∧
        create_index .small (some validationName) fsW1 =
          .error (.fileExists planW.textDir p)) :=
  ⟨by decide, by decide,
    create_index_rerun .small (some validationName) fsW fsW1 planW (by decide) (by decide)⟩

/-! ## Lemmas about the worker pool model -/

theorem getq_lt_some {γ : Type} : ∀ (l : List γ) (j : Nat), j < l.length →
    ∃ a, l[j]? = some a := by
  intro l
  induction l with
  | nil => intro j h; exact absurd h (by simp)
  | cons b bs ih =>
    intro j h
    cases j with
    | zero => exact ⟨b, by simp⟩
    | succ k =>
      obtain ⟨a, ha⟩ := ih k (by simpa using h)
      exact ⟨a, by simpa [List.getElem?_cons_succ] using ha⟩

theorem getq_ge_none {γ : Type} : ∀ (l : List γ) (j : Nat), l.length ≤ j → l[j]? = none := by
  intro l
  induction l with
  | nil => intro j h; rfl
  | cons b bs ih =>
    intro j h
    cases j with
    | zero => exact absurd h (by simp)
    | succ k => simpa [List.getElem?_cons_succ] using ih k (by simpa using h)

theorem getq_map {γ δ : Type} (g : γ → δ) : ∀ (l : List γ) (j : Nat),
    (l.map g)[j]? = (l[j]?).map g := by
  intro l
  induction l with
  | nil => intro j; rfl
  | cons b bs ih =>
    intro j
    cases j with
    | zero => simp
    | succ k => simpa [List.getElem?_cons_succ] using ih k

theorem listExtQ {γ : Type} : ∀ (l₁ l₂ : List γ), (∀ j : Nat, l₁[j]? = l₂[j]?) → l₁ = l₂ := by
  intro l₁
  induction l₁ with
  | nil =>
    intro l₂ h
    cases l₂ with
    | nil => rfl
    | cons b bs => exact absurd (h 0).symm (by simp)
  | cons a as ih =>
    intro l₂ h
    cases l₂ with
    | nil => exact absurd (h 0) (by simp)
    | cons b bs =>
      have h0 : a = b := by
        have := h 0
        simpa using this
      have ht : as = bs := ih bs (fun j => by simpa [List.getElem?_cons_succ] using h (j + 1))
      rw [h0, ht]

theorem set_getq_self {γ : Type} : ∀ (l : List γ) (i : Nat) (a : γ), i < l.length →
    (l.set i a)[i]? = some a := by
  intro l
  induction l with
  | nil => intro i a h; exact absurd h (by simp)
  | cons b bs ih =>
    intro i a h
    cases i with
    | zero => simp
    | succ j =>
      show (b :: bs.set j a)[j + 1]? = some a
      simpa [List.getElem?_cons_succ] using ih j a (by simpa using h)

theorem set_getq_ne {γ : Type} : ∀ (l : List γ) (i j : Nat) (a : γ), i ≠ j →
    (l.set i a)[j]? = l[j]? := by
  intro l
  induction l with
  | nil => intro i j a h; rfl
  | cons b bs ih =>
    intro i j a h
    cases i with
    | zero =>
      cases j with
      | zero => exact absurd rfl h
      | succ k => simp
    | succ i' =>
      cases j with
      | zero => simp
      | succ k =>
        show (b :: bs.set i' a)[k + 1]? = (b :: bs)[k + 1]?
        simpa [List.getElem?_cons_succ] using ih i' k a (fun he => h (by rw [he]))

theorem fillSlots_length {α β : Type} (f : α → β) (xs : List α) :
    ∀ (sched : List Nat) (slots : List (Option β)),
      (fillSlots f xs sched slots).length = slots.length := by
  intro sched
  induction sched with
  | nil => intro slots; rfl
  | cons i rest ih =>
    intro slots
    simp only [fillSlots]
    cases h : xs[i]? with
    | none => exact ih slots
    | some a => rw [ih]; exact List.length_set slots i _

theorem fillSlots_no_write {α β : Type} (f : α → β) (xs : List α) :
    ∀ (sched : List Nat) (slots : List (Option β)) (j : Nat), xs[j]? = none →
      (fillSlots f xs sched slots)[j]? = slots[j]? := by
  intro sched
  induction sched with
  | nil => intro slots j hj; rfl
  | cons i rest ih =>
    intro slots j hj
    simp only [fillSlots]
    cases h : xs[i]? with
    | none => exact ih slots j hj
    | some a =>
      have hij : i ≠ j := by
        intro he
        rw [he, hj] at h
        cases h
      rw [ih _ j hj, set_getq_ne _ _ _ _ hij]

theorem fillSlots_not_mem {α β : Type} (f : α → β) (xs : List α) :
    ∀ (sched : List Nat) (slots : List (Option β)) (j : Nat), j ∉ sched →
      (fillSlots f xs sched slots)[j]? = slots[j]? := by
  intro sched
  induction sched with
  | nil => intro slots j hj; rfl
  | cons i rest ih =>
    intro slots j hj
    have hji : j ≠ i := fun he => hj (he ▸ List.mem_cons_self i rest)
    have hjr : j ∉ rest := fun hr => hj (List.mem_cons_of_mem i hr)
    simp only [fillSlots]
    cases h : xs[i]? with
    | none => exact ih slots j hjr
    | some a => rw [ih _ j hjr, set_getq_ne _ _ _ _ (fun he => hji he.symm)]

theorem fillSlots_write {α β : Type} (f : α → β) (xs : List α) :
    ∀ (sched : List Nat) (slots : List (Option β)) (j : Nat) (a : α),
      slots.length = xs.length → j ∈ sched → xs[j]? = some a →
      (fillSlots f xs sched slots)[j]? = some (some (f a)) := by
  intro sched
  induction sched with
  | nil => intro slots j a _ hmem _; exact absurd hmem (List.not_mem_nil j)
  | cons i rest ih =>
    intro slots j a hlen hmem hj
    by_cases hjr : j ∈ rest
    · simp only [fillSlots]
      cases h : xs[i]? with
      | none => exact ih slots j a hlen hjr hj
      | some b => exact ih _ j a (by rw [List.length_set]; exact hlen) hjr hj
    · have hji : j = i := by
        rcases List.mem_cons.mp hmem with h' | h'
        · exact h'
        · exact absurd h' hjr
      subst hji
      simp only [fillSlots, hj]
      rw [fillSlots_not_mem f xs rest _ j hjr]
      apply set_getq_self
      rw [hlen]
      by_contra hge
      rw [getq_ge_none xs j (by omega)] at hj
      cases hj

theorem collectSlots_map_some {β : Type} (ys : List β) :
    collectSlots (ys.map some) = some ys := by
  induction ys with
  | nil => rfl
  | cons y ys ih => simp [collectSlots, ih]

/-- Core property of `Pool.map`: whatever order the tasks complete in, as long
as every task does complete, the collected result list is the input-order map. -/
theorem poolMapSched_eq {α β : Type} (f : α → β) (xs : List α) (sched : List Nat)
    (hc : ∀ j, j < xs.length → j ∈ sched) :
    poolMapSched f xs sched = some (xs.map f) := by
  unfold poolMapSched
  have hfill : fillSlots f xs sched (List.replicate xs.length none) = (xs.map f).map some := by
    apply listExtQ
    intro j
    by_cases hj : j < xs.length
    · obtain ⟨a, ha⟩ := getq_lt_some xs j hj
      rw [fillSlots_write f xs sched _ j a (by rw [List.length_replicate]) (hc j hj) ha]
      rw [getq_map, getq_map, ha]
      rfl
    · push_neg at hj
      rw [fillSlots_no_write f xs sched _ j (getq_ge_none xs j hj)]
      rw [getq_ge_none _ j (by rw [List.length_replicate]; exact hj)]
      rw [getq_ge_none _ j (by rw [List.length_map, List.length_map]; exact hj)]
  rw [hfill]
  exact collectSlots_map_some _

theorem lineOk_ok (l : String) (h : lineOk l = true) :
    process_jsonl_line l = .ok (processedRow l) := by
  unfold lineOk at h
  unfold processedRow
  cases hp : process_jsonl_line l with
  | ok r => rfl
  | error e => rw [hp] at h; cases h

theorem seqExcept_all_ok : ∀ (lines : List String), (∀ l ∈ lines, lineOk l = true) →
    seqExcept (lines.map process_jsonl_line) = .ok (lines.map processedRow) := by
  intro lines
  induction lines with
  | nil => intro _; rfl
  | cons l ls ih =>
    intro h
    have hl := lineOk_ok l (h l (List.mem_cons_self _ _))
    have ht := ih (fun x hx => h x (List.mem_cons_of_mem _ hx))
    simp only [List.map_cons, seqExcept, hl, ht]

theorem seqExcept_ok_inv : ∀ (lines : List String) (rows : List String),
    seqExcept (lines.map process_jsonl_line) = .ok rows →
    rows = lines.map processedRow := by
  intro lines
  induction lines with
  | nil =>
    intro rows h
    simp only [List.map_nil, seqExcept] at h
    exact (Except.ok.inj h).symm
  | cons l ls ih =>
    intro rows h
    simp only [List.map_cons, seqExcept] at h
    cases hp : process_jsonl_line l with
    | error e => rw [hp] at h; cases h
    | ok r =>
      rw [hp] at h
      simp only [seqExcept] at h
      cases hs : seqExcept (ls.map process_jsonl_line) with
      | error e => rw [hs] at h; cases h
      | ok rs =>
        rw [hs] at h
        obtain rfl := (Except.ok.inj h).symm
        have hr : processedRow l = r := by unfold processedRow; rw [hp]
        rw [List.map_cons, hr, ih rs hs]

theorem seqExcept_error_of_bad : ∀ (lines : List String),
    (∃ l ∈ lines, lineOk l = false) →
    ∃ e, seqExcept (lines.map process_jsonl_line) = .error e := by
  intro lines
  induction lines with
  | nil => rintro ⟨l, hl, _⟩; exact absurd hl (List.not_mem_nil l)
  | cons l ls ih =>
    rintro ⟨x, hx, hbad⟩
    cases hp : process_jsonl_line l with
    | error e => exact ⟨e, by simp only [List.map_cons, seqExcept, hp]⟩
    | ok r =>
      have hxl : x ∈ ls := by
        rcases List.mem_cons.mp hx with rfl | h'
        · exfalso
          unfold lineOk at hbad
          rw [hp] at hbad
          cases hbad
        · exact h'
      obtain ⟨e, he⟩ := ih ⟨x, hxl, hbad⟩
      refine ⟨e, ?_⟩
      simp only [List.map_cons, seqExcept, hp, he]

theorem convert_eval (nproc : Nat) (sched : List Nat) (lines : List String)
    (hc : ∀ j, j < lines.length → j ∈ sched) :
    convert_jsonl_for_search nproc sched lines =
      (match seqExcept (lines.map process_jsonl_line) with
        | .ok rows => some (rows, none)
        | .error e => some (([] : List String), some e)) := by
  unfold convert_jsonl_for_search
  rw [poolMapSched_eq process_jsonl_line lines sched hc]

/-- Claim C5: when every input line is transformable and every pool task
completes, `convert_jsonl_for_search` writes exactly one output line per input
line — the output line count equals the input line count — and the written
result does not depend on the worker-pool size. -/
theorem convert_line_count (sched : List Nat) (lines : List String)
    (hs : sched.Perm (List.range lines.length))
    (hok : ∀ l ∈ lines, lineOk l = true) :
    ∃ rows, (∀ nproc, convert_jsonl_for_search nproc sched lines = some (rows, none)) ∧
      rows.length = lines.length := by
  have hc : ∀ j, j < lines.length → j ∈ sched :=
    fun j hj => hs.mem_iff.mpr (List.mem_range.mpr hj)
  refine ⟨lines.map processedRow, fun nproc => ?_, List.length_map _ _⟩
  rw [convert_eval nproc sched lines hc, seqExcept_all_ok lines hok]

/-- Witness line for the happy-path claims. -/
def linesOne : List String := ["\x7b\"id\": \"x1\", \"contents\": \"a caption\"\x7d"]

/-- Witness for claim C5 at a concrete one-line file. -/
theorem convert_line_count_witness :
    ([0].Perm (List.range linesOne.length)) ∧ (∀ l ∈ linesOne, lineOk l = true) ∧
    ∃ rows, (∀ nproc, convert_jsonl_for_search nproc [0] linesOne = some (rows, none)) ∧
      rows.length = linesOne.length := by
  have hp : [0].Perm (List.range linesOne.length) := by
    rw [show List.range linesOne.length = [0] from rfl]
  have hok : ∀ l ∈ linesOne, lineOk l = true := by decide
  exact ⟨hp, hok, convert_line_count [0] linesOne hp hok⟩

/-- Counterexample to claim C6 as stated: there is no input and no completion
schedule under which the written output order differs from the input order —
`Pool.map` places each task's result at its input position. -/
theorem convert_order_counterexample :
    ¬ ∃ (nproc : Nat) (sched : List Nat) (lines rows : List String),
      sched.Perm (List.range lines.length) ∧
      convert_jsonl_for_search nproc sched lines = some (rows, none) ∧
      rows ≠ lines.map processedRow := by
  rintro ⟨nproc, sched, lines, rows, hperm, hconv, hne⟩
  have hc : ∀ j, j < lines.length → j ∈ sched :=
    fun j hj => hperm.mem_iff.mpr (List.mem_range.mpr hj)
  rw [convert_eval nproc sched lines hc] at hconv
  cases hs : seqExcept (lines.map process_jsonl_line) with
  | error e =>
    rw [hs] at hconv
    simp at hconv
  | ok rs =>
    rw [hs] at hconv
    simp only [Option.some.injEq, Prod.mk.injEq, and_true] at hconv
    exact hne (hconv ▸ seqExcept_ok_inv lines rs hs)

/-- Claim C6, amended: output order is guaranteed — for every pool completion
schedule, the lines written by `convert_jsonl_for_search` are the per-line
transforms in input order, because `Pool.map` collects results by input
position; order never follows completion order. -/
theorem convert_order_preserved (sched : List Nat) (lines : List String)
    (hs : sched.Perm (List.range lines.length))
    (hok : ∀ l ∈ lines, lineOk l = true) (nproc : Nat) :
    convert_jsonl_for_search nproc sched lines = some (lines.map processedRow, none) := by
  have hc : ∀ j, j < lines.length → j ∈ sched :=
    fun j hj => hs.mem_iff.mpr (List.mem_range.mpr hj)
  rw [convert_eval nproc sched lines hc, seqExcept_all_ok lines hok]

/-- Two distinct transformable lines. -/
def linesTwo : List String :=
  ["\x7b\"id\": \"x1\", \"contents\": \"caption one\"\x7d",
    "\x7b\"id\": \"x2\", \"contents\": \"caption two\"\x7d"]

/-- Witness for the amended claim C6: even under the reversed completion
schedule `[1, 0]`, the output lines come out in input order. -/
theorem convert_order_preserved_witness :
    ([1, 0].Perm (List.range linesTwo.length)) ∧ (∀ l ∈ linesTwo, lineOk l = true) ∧
    convert_jsonl_for_search 16 [1, 0] linesTwo =
      some (linesTwo.map processedRow, none) := by
  have hp : [1, 0].Perm (List.range linesTwo.length) := by
    rw [show List.range linesTwo.length = [0, 1] from rfl]
    exact List.Perm.swap 0 1 []
  have hok : ∀ l ∈ linesTwo, lineOk l = true := by decide
  exact ⟨hp, hok, convert_order_preserved [1, 0] linesTwo hp hok 16⟩

/-- Claim C10: the output file is created and truncated before any transform
result is written, and all per-line results are collected before the first
write; hence when some input line fails to transform, the raised exception
leaves the output file existing and empty — zero lines written. -/
theorem convert_empty_on_error (nproc : Nat) (sched : List Nat) (lines : List String)
    (hs : sched.Perm (List.range lines.length))
    (hbad : ∃ l ∈ lines, lineOk l = false) :
    ∃ e, convert_jsonl_for_search nproc sched lines = some ([], some e) := by
  have hc : ∀ j, j < lines.length → j ∈ sched :=
    fun j hj => hs.mem_iff.mpr (List.mem_range.mpr hj)
  obtain ⟨e, he⟩ := seqExcept_error_of_bad lines hbad
  refine ⟨e, ?_⟩
  rw [convert_eval nproc sched lines hc, he]

/-- One untransformable line. -/
def linesBad : List String := ["not json"]

/-- Witness for claim C10 at a concrete failing file. -/
theorem convert_empty_on_error_witness :
    ([0].Perm (List.range linesBad.length)) ∧ (∃ l ∈ linesBad, lineOk l = false) ∧
    ∃ e, convert_jsonl_for_search 16 [0] linesBad = some ([], some e) := by
  have hp : [0].Perm (List.range linesBad.length) := by
    rw [show List.range linesBad.length = [0] from rfl]
  have hbad : ∃ l ∈ linesBad, lineOk l = false := by decide
  exact ⟨hp, hbad, convert_empty_on_error 16 [0] linesBad hp hbad⟩

/-! ## Claims about the per-line topic transform and the qrels writer -/

/-- Claim C4: on any input line that parses to a JSON object carrying `"id"`
and `"contents"`, `process_jsonl_line` outputs the dump of a JSON object whose
keys are exactly `"id"` (the input's id) and `"title"` (the input's contents),
and nothing else. -/
theorem process_line_transform (line : String) (kvs : List (String × Json)) (i c : Json)
    (hp : jsonParse line = some (.obj kvs))
    (hid : lookupLast kvs "id" = some i)
    (hc : lookupLast kvs "contents" = some c) :
    ∃ out : List (String × Json),
      process_jsonl_line line = .ok (Json.dumps (.obj out)) ∧
      objKeys out = ["id", "title"] ∧
      lookupLast out "id" = some i ∧ lookupLast out "title" = some c := by
  refine ⟨[("id", i), ("title", c)], ?_, rfl, ?_, ?_⟩
  · simp only [process_jsonl_line, hp, hid, hc]
  · rfl
  · rfl

/-- The concrete topic line of the spec's example. -/
def lineGood : String := "\x7b\"id\": \"x1\", \"contents\": \"a caption\"\x7d"

/-- Its parsed members. -/
def kvsGood : List (String × Json) :=
  [("id", Json.str "x1"), ("contents", Json.str "a caption")]

/-- Witness for claim C4: the spec's example line maps to exactly
`{"id": "x1", "title": "a caption"}`. -/
theorem process_line_transform_witness :
    jsonParse lineGood = some (.obj kvsGood) ∧
    lookupLast kvsGood "id" = some (Json.str "x1") ∧
    lookupLast kvsGood "contents" = some (Json.str "a caption") ∧
    process_jsonl_line lineGood = .ok "\x7b\"id\": \"x1\", \"title\": \"a caption\"\x7d" ∧
    ∃ out, process_jsonl_line lineGood = .ok (Json.dumps (.obj out)) ∧
      objKeys out = ["id", "title"] ∧
      lookupLast out "id" = some (Json.str "x1") ∧
      lookupLast out "title" = some (Json.str "a caption") :=
  ⟨rfl, rfl, rfl, by decide,
    process_line_transform lineGood kvsGood (Json.str "x1") (Json.str "a caption")
      rfl rfl rfl⟩

/-- Claim C9: `process_jsonl_line` is partial at its interface — a line that is
not valid JSON raises the decode error, and a JSON object lacking `"id"` or
`"contents"` raises a missing-key error; no output line is produced. -/
theorem process_line_raises (line : String) :
    (jsonParse line = none → process_jsonl_line line = .error .jsonDecodeError) ∧
    (∀ kvs : List (String × Json), jsonParse line = some (.obj kvs) →
      (lookupLast kvs "id" = none ∨ lookupLast kvs "contents" = none) →
      ∃ k, process_jsonl_line line = .error (.keyError k)) := by
  constructor
  · intro h
    simp only [process_jsonl_line, h]
  · intro kvs hp hmiss
    rcases hid : lookupLast kvs "id" with _ | i
    · exact ⟨"id", by simp only [process_jsonl_line, hp, hid]⟩
    · rcases hcon : lookupLast kvs "contents" with _ | c
      · exact ⟨"contents", by simp only [process_jsonl_line, hp, hid, hcon]⟩
      · rcases hmiss with h | h
        · rw [hid] at h; cases h
        · rw [hcon] at h; cases h

/-- Witness for claim C9: a non-JSON line raises the decode error, and an
object without `"contents"` raises a key error. -/
theorem process_line_raises_witness :
    jsonParse "not json" = none ∧
    process_jsonl_line "not json" = .error .jsonDecodeError ∧
    jsonParse "\x7b\"id\": 1\x7d" = some (.obj [("id", Json.num "1")]) ∧
    lookupLast [("id", Json.num "1")] "contents" = none ∧
    ∃ k, process_jsonl_line "\x7b\"id\": 1\x7d" = .error (.keyError k) :=
  ⟨rfl, (process_line_raises "not json").1 rfl, rfl, rfl,
    (process_line_raises "\x7b\"id\": 1\x7d").2 [("id", Json.num "1")] rfl (Or.inr rfl)⟩

/-- The qrel record of the spec's example: text id `t1`, iteration constant
`Q0`, image id `i1`, relevance 1. -/
def qrelR0 : QrelRow := { text_id := "t1", q0 := "Q0", image_id := "i1", rel := 1 }

/-- Counterexample to claim C3 as stated: the line `"i1 Q0 t1 1"` is written by
the explicit swapped column selection, which the code applies to the i2t file,
not the t2i file; the t2i file gets the native order `"t1 Q0 i1 1"`.  The
claim's assignment of the two lines to the two files is reversed. -/
theorem prep_qrels_counterexample :
    ¬ ((prep_qrels_lines [qrelR0]).1 = ["i1 Q0 t1 1"] ∧
      (prep_qrels_lines [qrelR0]).2 = ["t1 Q0 i1 1"]) := by
  decide

/-- Claim C3, amended: for the record (text_id=t1, Q0, image_id=i1, rel=1) the
qrels preparer writes the space-separated header-less line `"t1 Q0 i1 1"`
(native column order) into the t2i projected file, and the permuted line
`"i1 Q0 t1 1"` (explicit image/text-swapped column selection) into the i2t
projected file. -/
theorem prep_qrels_amended :
    (prep_qrels_lines [qrelR0]).1 = ["t1 Q0 i1 1"] ∧
    (prep_qrels_lines [qrelR0]).2 = ["i1 Q0 t1 1"] := by
  decide
